import Mathlib

/-!
Verification of the Moborr.io backend simulation core.

Each section embeds one component of the JavaScript server source
(`server.js` and its unnamed sibling files) as Lean definitions over exact
arithmetic (`ℚ`, `ℤ`, `ℕ`, and `ℝ` where the source takes square roots),
and the theorems at the end settle the specification claims against those
definitions.  JavaScript `x || d` defaulting on numeric fields is modelled
as `if x = 0 then d else x`; IEEE-754 rounding is not modelled (all
arithmetic is exact).
-/

namespace Moborr

/-! ## Tick-loop player motion (file `part_000`, lines 557-570)

The 20 Hz simulation loop reconstructs each player's velocity from the last
raw buffered input (`p.vx = p.lastInput.x * p.baseSpeed` — note: the stored
`lastInput` is whatever the client sent, `part_000` never normalizes it),
integrates the position, and clamps to the square map when the limit
`MAP_HALF - radius - 8` is exceeded on either axis. -/

/-- `MAP_HALF` of `part_000`: half-size of the square map. -/
def mapHalfP0 : ℚ := 9000

/-- `TICK_DT = 1 / TICK_RATE` with `TICK_RATE = 20` in `part_000`. -/
def tickDtP0 : ℚ := 1 / 20

/-- The per-player state touched by the `part_000` tick loop. -/
structure P0 where
  x : ℚ
  y : ℚ
  vx : ℚ
  vy : ℚ
  lastInputX : ℚ
  lastInputY : ℚ
  baseSpeed : ℚ
  radius : ℚ
  deriving DecidableEq

/-- `p.radius || 28` of the tick loop's bounds clamp. -/
def effRadiusP0 (p : P0) : ℚ := if p.radius = 0 then 28 else p.radius

/-- One iteration of the player-motion part of the `part_000` `setInterval`
tick body (lines 557-570): velocity from the stored last input, Euler
integration, then the conditional clamp to `±(MAP_HALF - radius - 8)`. -/
def tickPlayerMotion (p : P0) : P0 :=
  let vx := p.lastInputX * p.baseSpeed
  let vy := p.lastInputY * p.baseSpeed
  let x := p.x + vx * tickDtP0
  let y := p.y + vy * tickDtP0
  let limit := mapHalfP0 - effRadiusP0 p - 8
  if limit < |x| ∨ limit < |y| then
    { p with vx := vx, vy := vy,
             x := max (-limit) (min limit x),
             y := max (-limit) (min limit y) }
  else
    { p with vx := vx, vy := vy, x := x, y := y }

/-- A player whose client sent the non-normalized input vector `(2, 0)`. -/
def p5ce : P0 :=
  { x := 0, y := 0, vx := 0, vy := 0,
    lastInputX := 2, lastInputY := 0, baseSpeed := 380, radius := 28 }

/-- A player with a properly normalized stored input, for the C5 witness. -/
def p5w : P0 :=
  { x := 0, y := 0, vx := 0, vy := 0,
    lastInputX := 1, lastInputY := 0, baseSpeed := 380, radius := 28 }

/-- A player one tick away from the map edge moving outward, for C7. -/
def p7ce : P0 :=
  { x := 8960, y := 0, vx := 0, vy := 0,
    lastInputX := 1, lastInputY := 0, baseSpeed := 380, radius := 28 }

/-- A player in the interior, for the C7 witness. -/
def p7w : P0 :=
  { x := 0, y := 0, vx := 0, vy := 0,
    lastInputX := 1, lastInputY := 0, baseSpeed := 380, radius := 28 }

end Moborr

namespace Moborr

/-- Claim C5, counterexample: the `part_000` tick loop multiplies the raw
stored input by `baseSpeed` without normalizing, so the client-supplied
vector `(2, 0)` produces velocity `(760, 0)`, whose squared magnitude
exceeds `baseSpeed² = 380²`. -/
theorem c5_counterexample :
    (tickPlayerMotion p5ce).vx = 760 ∧
    p5ce.baseSpeed ^ 2 <
      (tickPlayerMotion p5ce).vx ^ 2 + (tickPlayerMotion p5ce).vy ^ 2 := by
  norm_num [tickPlayerMotion, p5ce, tickDtP0, mapHalfP0, effRadiusP0]

/-- Claim C5, amended: on every tick the velocity is reconstructed as the
stored last input times `baseSpeed`, with no normalization in the tick loop;
consequently the speed magnitude is bounded by `baseSpeed` only when the
stored input vector itself has norm at most 1. -/
theorem c5_speed_bounded_for_normalized_input (p : P0)
    (h1 : p.lastInputX ^ 2 + p.lastInputY ^ 2 ≤ 1) :
    (tickPlayerMotion p).vx ^ 2 + (tickPlayerMotion p).vy ^ 2 ≤
      p.baseSpeed ^ 2 := by
  have hvx : (tickPlayerMotion p).vx = p.lastInputX * p.baseSpeed := by
    unfold tickPlayerMotion
    dsimp only
    split <;> rfl
  have hvy : (tickPlayerMotion p).vy = p.lastInputY * p.baseSpeed := by
    unfold tickPlayerMotion
    dsimp only
    split <;> rfl
  rw [hvx, hvy]
  have hs : 0 ≤ p.baseSpeed ^ 2 := sq_nonneg _
  calc (p.lastInputX * p.baseSpeed) ^ 2 + (p.lastInputY * p.baseSpeed) ^ 2
      = (p.lastInputX ^ 2 + p.lastInputY ^ 2) * p.baseSpeed ^ 2 := by ring
    _ ≤ 1 * p.baseSpeed ^ 2 := mul_le_mul_of_nonneg_right h1 hs
    _ = p.baseSpeed ^ 2 := one_mul _

/-- Witness for the amended C5 at a concrete normalized input. -/
theorem c5_witness :
    p5w.lastInputX ^ 2 + p5w.lastInputY ^ 2 ≤ 1 ∧
    (tickPlayerMotion p5w).vx ^ 2 + (tickPlayerMotion p5w).vy ^ 2 ≤
      p5w.baseSpeed ^ 2 :=
  ⟨by norm_num [p5w],
    c5_speed_bounded_for_normalized_input p5w (by norm_num [p5w])⟩

/-- Claim C7, counterexample: a radius-28 player at `x = 8960` moving outward
is clamped at `MAP_HALF - radius - 8 = 8964`, not at the claimed exact bound
`MAP_HALF - radius = 8972`. -/
theorem c7_counterexample :
    (tickPlayerMotion p7ce).x = 8964 ∧ mapHalfP0 - p7ce.radius = 8972 ∧
    (tickPlayerMotion p7ce).x ≠ mapHalfP0 - p7ce.radius := by
  norm_num [tickPlayerMotion, p7ce, tickDtP0, mapHalfP0, effRadiusP0]

/-- Claim C7, amended: after the tick integrates and clamps, the player
satisfies `|x| ≤ MAP_HALF - radius - 8` and `|y| ≤ MAP_HALF - radius - 8`
(the clamp bound carries an extra fixed margin of 8 beyond the claimed
`MAP_HALF - radius`), provided the radius leaves that bound non-negative. -/
theorem c7_clamp_bound (p : P0) (h : effRadiusP0 p ≤ mapHalfP0 - 8) :
    |(tickPlayerMotion p).x| ≤ mapHalfP0 - effRadiusP0 p - 8 ∧
    |(tickPlayerMotion p).y| ≤ mapHalfP0 - effRadiusP0 p - 8 := by
  have hlim : (0 : ℚ) ≤ mapHalfP0 - effRadiusP0 p - 8 := by linarith
  unfold tickPlayerMotion
  dsimp only
  split
  · constructor <;>
    · simp only
      rw [abs_le]
      refine ⟨le_max_left _ _, max_le (by linarith) (min_le_left _ _)⟩
  · rename_i hnot
    push_neg at hnot
    exact ⟨by simpa using hnot.1, by simpa using hnot.2⟩

/-- Witness for the amended C7 at a concrete interior player. -/
theorem c7_witness :
    effRadiusP0 p7w ≤ mapHalfP0 - 8 ∧
    |(tickPlayerMotion p7w).x| ≤ mapHalfP0 - effRadiusP0 p7w - 8 ∧
    |(tickPlayerMotion p7w).y| ≤ mapHalfP0 - effRadiusP0 p7w - 8 :=
  ⟨by norm_num [p7w, effRadiusP0, mapHalfP0],
    c7_clamp_bound p7w (by norm_num [p7w, effRadiusP0, mapHalfP0])⟩

/-! ## Gateway input handler (file `server.js`, lines 175-205)

The `socket.on('input')` handler: update `lastHeard`, clamp `dt`, discard
the message if its sequence number is not strictly greater than
`lastProcessedInput`, otherwise normalize the input vector (when its
`Math.hypot` length exceeds `1e-6`), set velocity to the normalized input
times `SPEED`, integrate, and clamp to the map bounds.  Positions are reals
because `Math.hypot` takes a square root; sequence numbers and the
millisecond clock are integers. -/

/-- `SPEED = 260` of `server.js`. -/
def speedSrv : ℝ := 260

/-- `MAX_INPUT_DT = 0.1` of `server.js`. -/
noncomputable def maxInputDt : ℝ := 1 / 10

/-- `MAP_BOUNDS.padding = 16` of `server.js`. -/
def mapPaddingSrv : ℝ := 16

/-- `MAP_BOUNDS.w = MAP_BOUNDS.h = 12000` of `server.js`. -/
def mapWSrv : ℝ := 12000

/-- `STALE_PLAYER_TIMEOUT = 30000` ms of the stale-player sweep. -/
def staleTimeoutMs : ℤ := 30000

/-- The per-player fields touched by the `server.js` input handler. -/
structure SrvPlayer where
  x : ℝ
  y : ℝ
  vx : ℝ
  vy : ℝ
  lastProcessedInput : ℤ
  lastHeard : ℤ

/-- A decoded `input` message `{seq, dt, input: {x, y}}`. -/
structure InputMsg where
  seq : ℤ
  dt : ℝ
  inputX : ℝ
  inputY : ℝ

/-- `Math.hypot(a, b)`. -/
noncomputable def hypotR (a b : ℝ) : ℝ := Real.sqrt (a ^ 2 + b ^ 2)

/-- `clamp(val, a, b) = Math.max(a, Math.min(b, val))` of `server.js`. -/
noncomputable def clampR (v lo hi : ℝ) : ℝ := max lo (min hi v)

/-- The body of `socket.on('input')` in `server.js` (lines 175-205) as a
state transformer on the player record, given the current clock `now`. -/
noncomputable def handleInput (p : SrvPlayer) (m : InputMsg) (now : ℤ) :
    SrvPlayer :=
  let p1 : SrvPlayer := { p with lastHeard := now }
  let dt := min m.dt maxInputDt
  if m.seq ≤ p1.lastProcessedInput then p1
  else
    let len := hypotR m.inputX m.inputY
    let ix := if 1 / 1000000 < len then m.inputX / len else m.inputX
    let iy := if 1 / 1000000 < len then m.inputY / len else m.inputY
    let vx := ix * speedSrv
    let vy := iy * speedSrv
    { x := clampR (p1.x + vx * dt) mapPaddingSrv (mapWSrv - mapPaddingSrv),
      y := clampR (p1.y + vy * dt) mapPaddingSrv (mapWSrv - mapPaddingSrv),
      vx := vx, vy := vy, lastProcessedInput := m.seq, lastHeard := now }

/-- The stale-player sweep condition `now - p.lastHeard > STALE_PLAYER_TIMEOUT`
(the sweep removes exactly the players satisfying it). -/
def isStale (p : SrvPlayer) (now : ℤ) : Prop :=
  staleTimeoutMs < now - p.lastHeard

/-- Concrete player for the C1 witness. -/
noncomputable def c1p : SrvPlayer :=
  { x := 100, y := 200, vx := 3, vy := 4, lastProcessedInput := 5,
    lastHeard := 0 }

/-- Concrete stale (replayed) input message for the C1 witness. -/
noncomputable def c1m : InputMsg :=
  { seq := 3, dt := 1 / 30, inputX := 1, inputY := 0 }

/-- Concrete player for the C10 witness. -/
noncomputable def c10p : SrvPlayer :=
  { x := 50, y := 60, vx := 0, vy := 0, lastProcessedInput := 9,
    lastHeard := 0 }

/-- Concrete discarded input message for the C10 witness. -/
noncomputable def c10m : InputMsg :=
  { seq := 2, dt := 1 / 30, inputX := 0, inputY := 1 }

/-- Claim C1: an input message whose sequence number is less than or equal to
the last accepted sequence number leaves the player's position and velocity
unchanged. -/
theorem c1_replayed_input_preserves_motion (p : SrvPlayer) (m : InputMsg)
    (now : ℤ) (h : m.seq ≤ p.lastProcessedInput) :
    (handleInput p m now).x = p.x ∧ (handleInput p m now).y = p.y ∧
    (handleInput p m now).vx = p.vx ∧ (handleInput p m now).vy = p.vy := by
  unfold handleInput
  dsimp only
  rw [if_pos h]
  exact ⟨rfl, rfl, rfl, rfl⟩

/-- Witness for C1 at a concrete replayed message. -/
theorem c1_witness :
    c1m.seq ≤ c1p.lastProcessedInput ∧
    ((handleInput c1p c1m 777).x = c1p.x ∧
     (handleInput c1p c1m 777).y = c1p.y ∧
     (handleInput c1p c1m 777).vx = c1p.vx ∧
     (handleInput c1p c1m 777).vy = c1p.vy) :=
  ⟨by norm_num [c1m, c1p],
    c1_replayed_input_preserves_motion c1p c1m 777 (by norm_num [c1m, c1p])⟩

/-- Claim C10: the input handler stamps `lastHeard := now` before the
sequence-number check, so every input message from a joined player — in
particular one discarded for a non-increasing sequence number — counts as
activity, and the stale-player sweep cannot remove the player within the
30-second timeout window after the message. -/
theorem c10_input_always_refreshes_liveness (p : SrvPlayer) (m : InputMsg)
    (now now2 : ℤ) (hwin : now2 - now ≤ staleTimeoutMs) :
    (handleInput p m now).lastHeard = now ∧
    ¬ isStale (handleInput p m now) now2 := by
  have hlh : (handleInput p m now).lastHeard = now := by
    unfold handleInput
    dsimp only
    split
    · rfl
    · rfl
  refine ⟨hlh, ?_⟩
  unfold isStale
  rw [hlh]
  omega

/-- Witness for C10 at a concrete discarded message: the message's sequence
number is stale, yet it refreshes `lastHeard` and defeats the stale sweep. -/
theorem c10_witness :
    c10m.seq ≤ c10p.lastProcessedInput ∧ (31000 : ℤ) - 1000 ≤ staleTimeoutMs ∧
    ((handleInput c10p c10m 1000).lastHeard = 1000 ∧
     ¬ isStale (handleInput c10p c10m 1000) 31000) :=
  ⟨by norm_num [c10m, c10p], by norm_num [staleTimeoutMs],
    c10_input_always_refreshes_liveness c10p c10m 1000 31000
      (by norm_num [staleTimeoutMs])⟩

end Moborr

namespace Moborr

/-! ## Spatial grid (file `server.js`, lines 607-668)

`SpatialGrid.build` inserts every wall into all grid cells its bounding box
overlaps (`Math.floor(wall.x / cellSize)` through
`Math.floor((wall.x + wall.width) / cellSize)`, and likewise for `y`).
`getNearbyWalls(x, y, radius)` unions the cell buckets in the square of
half-width `Math.ceil(radius / cellSize) + 1` around the query point's cell,
so a wall is in the query result exactly when some scanned cell index pair
lies inside the wall's insertion range.  `checkWallCollisionOptimized`
re-tests each returned wall exactly: clamp the point to the wall rectangle
and compare the distance to `radius` (encoded below in squared form to stay
in exact arithmetic). -/

/-- A wall rectangle `{x, y, width, height}` of the `server.js` `WALLS`. -/
structure WallR where
  x : ℚ
  y : ℚ
  width : ℚ
  height : ℚ
  deriving DecidableEq

/-- `Math.floor(v / cellSize)`: the grid cell index of a coordinate. -/
def cellOf (cellSize v : ℚ) : ℤ := ⌊v / cellSize⌋

/-- `Math.ceil(radius / cellSize) + 1`: the scan half-width of
`getNearbyWalls`. -/
def searchRadius (cellSize radius : ℚ) : ℤ := ⌈radius / cellSize⌉ + 1

/-- `closestX = Math.max(wall.x, Math.min(x, wall.x + wall.width))`. -/
def closestXOn (w : WallR) (x : ℚ) : ℚ := max w.x (min x (w.x + w.width))

/-- `closestY = Math.max(wall.y, Math.min(y, wall.y + wall.height))`. -/
def closestYOn (w : WallR) (y : ℚ) : ℚ := max w.y (min y (w.y + w.height))

/-- The narrow-phase test of `checkWallCollisionOptimized`:
`distance < radius`, written on squares. -/
def wallCollides (x y radius : ℚ) (w : WallR) : Prop :=
  (x - closestXOn w x) ^ 2 + (y - closestYOn w y) ^ 2 < radius ^ 2

/-- Membership of `w` in `getNearbyWalls(x, y, radius)` over a grid built
from a wall list containing `w`: some cell `(i, j)` scanned by the query
(within `searchRadius` of the query point's cell on both axes) lies in the
cell range `build` inserted `w` into. -/
def inNearbyWalls (cellSize x y radius : ℚ) (w : WallR) : Prop :=
  ∃ i j : ℤ,
    cellOf cellSize x - searchRadius cellSize radius ≤ i ∧
    i ≤ cellOf cellSize x + searchRadius cellSize radius ∧
    cellOf cellSize y - searchRadius cellSize radius ≤ j ∧
    j ≤ cellOf cellSize y + searchRadius cellSize radius ∧
    cellOf cellSize w.x ≤ i ∧ i ≤ cellOf cellSize (w.x + w.width) ∧
    cellOf cellSize w.y ≤ j ∧ j ≤ cellOf cellSize (w.y + w.height)

/-- On one axis: the cell of the clamped closest coordinate is within
`searchRadius` of the query coordinate's cell whenever they differ by less
than `radius`. -/
theorem cell_within_scan (cellSize radius v c : ℚ) (hcs : 0 < cellSize)
    (hlt : |v - c| < radius) :
    cellOf cellSize v - searchRadius cellSize radius ≤ cellOf cellSize c ∧
    cellOf cellSize c ≤ cellOf cellSize v + searchRadius cellSize radius := by
  rcases abs_lt.mp hlt with ⟨hl, hr⟩
  have hf1 : ((⌊c / cellSize⌋ : ℤ) : ℚ) ≤ c / cellSize := Int.floor_le _
  have hf2 : c / cellSize < ⌊c / cellSize⌋ + 1 := Int.lt_floor_add_one _
  have hf3 : ((⌊v / cellSize⌋ : ℤ) : ℚ) ≤ v / cellSize := Int.floor_le _
  have hf4 : v / cellSize < ⌊v / cellSize⌋ + 1 := Int.lt_floor_add_one _
  have hf5 : radius / cellSize ≤ (⌈radius / cellSize⌉ : ℚ) := Int.le_ceil _
  have hd1 : c / cellSize - v / cellSize < radius / cellSize := by
    rw [← sub_div]
    exact (div_lt_div_iff_of_pos_right hcs).mpr (by linarith)
  have hd2 : v / cellSize - c / cellSize < radius / cellSize := by
    rw [← sub_div]
    exact (div_lt_div_iff_of_pos_right hcs).mpr (by linarith)
  constructor
  · have h : ((cellOf cellSize v : ℤ) : ℚ) <
        ((cellOf cellSize c + searchRadius cellSize radius : ℤ) : ℚ) := by
      unfold cellOf searchRadius
      push_cast
      linarith
    have := Int.cast_lt.mp h
    omega
  · have h : ((cellOf cellSize c : ℤ) : ℚ) <
        ((cellOf cellSize v + searchRadius cellSize radius : ℤ) : ℚ) := by
      unfold cellOf searchRadius
      push_cast
      linarith
    have := Int.cast_lt.mp h
    omega

/-- Claim C2: the spatial-grid query is a superset of the brute-force
narrow-phase result — any wall of the indexed set whose closest point to
`(x, y)` lies within distance `radius` is returned by `getNearbyWalls`
(no false negatives). -/
theorem c2_grid_query_superset (cellSize x y radius : ℚ) (walls : List WallR)
    (w : WallR) (_hmem : w ∈ walls) (hcs : 0 < cellSize) (hr : 0 ≤ radius)
    (hwidth : 0 ≤ w.width) (hheight : 0 ≤ w.height)
    (hcol : wallCollides x y radius w) :
    inNearbyWalls cellSize x y radius w := by
  have hx2 : (x - closestXOn w x) ^ 2 < radius ^ 2 :=
    lt_of_le_of_lt (le_add_of_nonneg_right (sq_nonneg _)) hcol
  have hy2 : (y - closestYOn w y) ^ 2 < radius ^ 2 := by
    have := hcol
    unfold wallCollides at this
    nlinarith [sq_nonneg (x - closestXOn w x)]
  have hax : |x - closestXOn w x| < radius := by
    rcases abs_cases (x - closestXOn w x) with ⟨he, _⟩ | ⟨he, _⟩ <;> nlinarith
  have hay : |y - closestYOn w y| < radius := by
    rcases abs_cases (y - closestYOn w y) with ⟨he, _⟩ | ⟨he, _⟩ <;> nlinarith
  have hmono : ∀ a b : ℚ, a ≤ b → cellOf cellSize a ≤ cellOf cellSize b := by
    intro a b hab
    unfold cellOf
    exact Int.floor_le_floor (by gcongr)
  have hscanx := cell_within_scan cellSize radius x (closestXOn w x) hcs hax
  have hscany := cell_within_scan cellSize radius y (closestYOn w y) hcs hay
  refine ⟨cellOf cellSize (closestXOn w x), cellOf cellSize (closestYOn w y),
    hscanx.1, hscanx.2, hscany.1, hscany.2, ?_, ?_, ?_, ?_⟩
  · exact hmono _ _ (le_max_left _ _)
  · exact hmono _ _ (max_le (le_add_of_nonneg_right hwidth) (min_le_right _ _))
  · exact hmono _ _ (le_max_left _ _)
  · exact hmono _ _ (max_le (le_add_of_nonneg_right hheight) (min_le_right _ _))

/-- The first `server.js` maze wall `{x: 0, y: 0, width: 600, height: 4800}`
(`wallThickness = 600`, `mapH * 0.4 = 4800`), for the C2 witness. -/
def c2wall : WallR := { x := 0, y := 0, width := 600, height := 4800 }

/-- Witness for C2: a radius-26 query at `(10, 10)` with the 1000-px grid
collides with the first maze wall, so the wall is in the grid query. -/
theorem c2_witness :
    c2wall ∈ [c2wall] ∧ (0 : ℚ) < 1000 ∧ (0 : ℚ) ≤ 26 ∧
    (0 : ℚ) ≤ c2wall.width ∧ (0 : ℚ) ≤ c2wall.height ∧
    wallCollides 10 10 26 c2wall ∧ inNearbyWalls 1000 10 10 26 c2wall :=
  ⟨List.mem_singleton.mpr rfl, by norm_num, by norm_num,
    by norm_num [c2wall], by norm_num [c2wall],
    by norm_num [wallCollides, closestXOn, closestYOn, c2wall],
    c2_grid_query_superset 1000 10 10 26 [c2wall] c2wall
      (List.mem_singleton.mpr rfl) (by norm_num) (by norm_num)
      (by norm_num [c2wall]) (by norm_num [c2wall])
      (by norm_num [wallCollides, closestXOn, closestYOn, c2wall])⟩

end Moborr

namespace Moborr

/-! ## XP award and leveling (file `part_000`, lines 350-386)

`awardXpToPlayer` adds the award to `player.xp`, defaults `nextLevelXp`
to 100 when falsy, and then loops: while `xp >= nextLevelXp`, subtract the
threshold, bump the level, add 50 to `maxHp`, heal 50 capped at the new
maximum, grow the threshold to `Math.ceil(req * 1.3)` (exact rationals
here), and on every 5th level multiply `damageMul` by 1.3 and
`buffDurationMul` by 1.1.  JavaScript `x || d` numeric defaulting is
modelled as `if x = 0 then d else x`.  XP quantities are naturals (all
awards and thresholds in the source are integers).  The loop guard carries
the extra conjunct `1 ≤ nextLevelXp` for termination; `awardXpToPlayer`
establishes it via the `|| 100` defaulting and `levelUpStep` preserves it,
so on every state the loop actually visits the guard agrees with the
source's `xp >= nextLevelXp`. -/

/-- The progression fields of a player record touched by `awardXpToPlayer`. -/
structure PlayerProg where
  xp : ℕ
  level : ℕ
  maxHp : ℕ
  hp : ℕ
  nextLevelXp : ℕ
  damageMul : ℚ
  buffDurationMul : ℚ
  deriving DecidableEq

/-- One iteration of the `while (player.xp >= player.nextLevelXp)` body. -/
def levelUpStep (st : PlayerProg) : PlayerProg :=
  let req := st.nextLevelXp
  let level1 := (if st.level = 0 then 1 else st.level) + 1
  let maxHp1 := (if st.maxHp = 0 then 200 else st.maxHp) + 50
  { xp := st.xp - req,
    level := level1,
    maxHp := maxHp1,
    hp := min maxHp1 ((if st.hp = 0 then maxHp1 else st.hp) + 50),
    nextLevelXp := (⌈(req : ℚ) * 13 / 10⌉).toNat,
    damageMul :=
      if level1 % 5 = 0 then
        (if st.damageMul = 0 then 1 else st.damageMul) * (13 / 10)
      else st.damageMul,
    buffDurationMul :=
      if level1 % 5 = 0 then
        (if st.buffDurationMul = 0 then 1 else st.buffDurationMul) * (11 / 10)
      else st.buffDurationMul }

/-- The level-up while loop of `awardXpToPlayer`. -/
def levelLoop (st : PlayerProg) : PlayerProg :=
  if _h : 1 ≤ st.nextLevelXp ∧ st.nextLevelXp ≤ st.xp then
    levelLoop (levelUpStep st)
  else st
termination_by st.xp
decreasing_by
  simp only [levelUpStep]
  omega

/-- The `player.nextLevelXp || 100` defaulting done before the loop. -/
def defaultReq (n : ℕ) : ℕ := if n = 0 then 100 else n

/-- `awardXpToPlayer(player, amount)` of `part_000`: add the XP, default the
threshold, run the level-up loop. -/
def awardXpToPlayer (st : PlayerProg) (amount : ℕ) : PlayerProg :=
  levelLoop { st with xp := st.xp + amount, nextLevelXp := defaultReq st.nextLevelXp }

/-- The grown threshold `Math.ceil(req * 1.3)` stays positive. -/
theorem levelUpStep_nextLevelXp_pos (st : PlayerProg)
    (h : 1 ≤ st.nextLevelXp) : 1 ≤ (levelUpStep st).nextLevelXp := by
  unfold levelUpStep
  dsimp only
  have h1 : (0 : ℚ) < (st.nextLevelXp : ℚ) * 13 / 10 := by
    have : (1 : ℚ) ≤ (st.nextLevelXp : ℚ) := by exact_mod_cast h
    linarith
  have h2 : (0 : ℤ) < ⌈(st.nextLevelXp : ℚ) * 13 / 10⌉ := Int.ceil_pos.mpr h1
  omega

/-- The while loop preserves positivity of the threshold. -/
theorem levelLoop_nextLevelXp_pos (st : PlayerProg) :
    1 ≤ st.nextLevelXp → 1 ≤ (levelLoop st).nextLevelXp := by
  induction st using levelLoop.induct with
  | case1 st hg ih =>
    intro h
    rw [levelLoop, dif_pos hg]
    exact ih (levelUpStep_nextLevelXp_pos st h)
  | case2 st hg =>
    intro h
    rw [levelLoop, dif_neg hg]
    exact h

/-- Adding extra XP to a state and looping is the same as looping first and
then adding the XP and looping again: the loop consumes the same threshold
sequence either way. -/
theorem levelLoop_add_xp (st : PlayerProg) (b : ℕ) :
    levelLoop { st with xp := st.xp + b } =
      levelLoop { (levelLoop st) with xp := (levelLoop st).xp + b } := by
  induction st using levelLoop.induct with
  | case1 st hg ih =>
    have hg' : 1 ≤ ({ st with xp := st.xp + b } : PlayerProg).nextLevelXp ∧
        ({ st with xp := st.xp + b } : PlayerProg).nextLevelXp ≤
          ({ st with xp := st.xp + b } : PlayerProg).xp :=
      ⟨hg.1, le_trans hg.2 (Nat.le_add_right _ _)⟩
    have hxp : st.xp + b - st.nextLevelXp = st.xp - st.nextLevelXp + b := by
      omega
    have hstep : levelUpStep { st with xp := st.xp + b } =
        { (levelUpStep st) with xp := (levelUpStep st).xp + b } := by
      simp [levelUpStep, hxp]
    have hst : levelLoop st = levelLoop (levelUpStep st) := by
      conv_lhs => rw [levelLoop]
      rw [dif_pos hg]
    conv_lhs => rw [levelLoop]
    rw [dif_pos hg', hstep, ih, hst]
  | case2 st hg =>
    have hst : levelLoop st = st := by
      rw [levelLoop, dif_neg hg]
    rw [hst]

/-- Claim C3: awarding `a + b` XP in one call produces exactly the same
final player progression state (level, remaining xp, nextLevelXp, maxHp,
hp — and the level-5 multipliers) as awarding `a` and then `b` in two
calls; in particular one award crossing several thresholds equals repeated
smaller awards. -/
theorem c3_award_xp_additive (st : PlayerProg) (a b : ℕ) :
    awardXpToPlayer st (a + b) = awardXpToPlayer (awardXpToPlayer st a) b := by
  unfold awardXpToPlayer
  have hd1 : 1 ≤ defaultReq st.nextLevelXp := by
    unfold defaultReq
    split <;> omega
  have hL : ({ st with xp := st.xp + (a + b), nextLevelXp := defaultReq st.nextLevelXp } : PlayerProg) =
      { ({ st with xp := st.xp + a, nextLevelXp := defaultReq st.nextLevelXp } : PlayerProg) with
        xp := ({ st with xp := st.xp + a, nextLevelXp := defaultReq st.nextLevelXp } : PlayerProg).xp + b } := by
    simp [Nat.add_assoc]
  rw [hL, levelLoop_add_xp]
  have hpos : 1 ≤ (levelLoop { st with xp := st.xp + a, nextLevelXp := defaultReq st.nextLevelXp }).nextLevelXp :=
    levelLoop_nextLevelXp_pos _ hd1
  have hnn : ∀ n : ℕ, 1 ≤ n → defaultReq n = n := by
    intro n h
    unfold defaultReq
    split <;> omega
  rw [hnn _ hpos]

end Moborr

namespace Moborr

/-! ## Mob damage, death credit and respawn (file `part_000`, lines 388-409)

`damageMob` subtracts the damage, accumulates the attacker's contribution in
the insertion-ordered `damageContrib` object, and on reaching 0 hp marks the
mob dead, picks the highest cumulative contributor with
`Object.entries(...).reduce((a, b) => b[1] > a[1] ? b : a, ['', 0])`,
broadcasts the kill credit `(killerId, mob.def.xp || 10)` (the XP is then
awarded to that player when connected), and schedules the respawn at
`now + (mob.def.respawn || 10) * 1000` milliseconds. -/

/-- The fields of a mob-type definition used by `damageMob`. -/
structure MobDef where
  xp : ℚ
  respawn : ℚ
  deriving DecidableEq

/-- The mob fields touched by `damageMob`. -/
structure Mob where
  hp : ℚ
  maxHp : ℚ
  dead : Bool
  damageContrib : List (String × ℚ)
  respawnAt : Option ℚ
  defn : MobDef
  deriving DecidableEq

/-- `mob.damageContrib[playerId] = (mob.damageContrib[playerId] || 0) + amount`
on the insertion-ordered entry list of the JS object. -/
def addContrib : List (String × ℚ) → String → ℚ → List (String × ℚ)
  | [], pid, amt => [(pid, amt)]
  | (k, v) :: rest, pid, amt =>
    if k = pid then (k, v + amt) :: rest else (k, v) :: addContrib rest pid amt

/-- `Object.entries(mob.damageContrib).reduce((a, b) => b[1] > a[1] ? b : a,
['', 0])`. -/
def topDamager (entries : List (String × ℚ)) : String × ℚ :=
  entries.foldl (fun a b => if a.2 < b.2 then b else a) ("", 0)

/-- `damageMob(mob, amount, playerId)` of `part_000` as a state transformer,
returning the updated mob and the kill credit `(killerId, xpReward)` of the
`mob_died` broadcast (`none` when the mob survives or no contributor is
attributable).  A JS falsy `playerId` (absent, or the empty string) skips
the contribution record. -/
def damageMob (mob : Mob) (amount : ℚ) (playerId : Option String) (now : ℚ) :
    Mob × Option (String × ℚ) :=
  if mob.hp ≤ 0 then (mob, none)
  else
    let hp1 := mob.hp - amount
    let contrib :=
      match playerId with
      | some pid =>
        if pid = "" then mob.damageContrib
        else addContrib mob.damageContrib pid amount
      | none => mob.damageContrib
    if hp1 ≤ 0 then
      let top := topDamager contrib
      let killerId : Option String := if top.1 = "" then none else some top.1
      let xpReward := if mob.defn.xp = 0 then 10 else mob.defn.xp
      let respawnWait := if mob.defn.respawn = 0 then 10 else mob.defn.respawn
      ({ mob with hp := hp1, damageContrib := contrib, dead := true,
                  respawnAt := some (now + respawnWait * 1000) },
       killerId.map (fun k => (k, xpReward)))
    else
      ({ mob with hp := hp1, damageContrib := contrib }, none)

/-- Claim C8: a full-health mob with `maxHp = 120` hit for 150 damage by a
player `pid` dies, credits `pid` — the highest cumulative contributor —
with the mob type's defined XP reward, and schedules its respawn at
`now + respawn * 1000` (the respawn delay is in seconds). -/
theorem c8_overkill_death_credit_respawn (mob : Mob) (pid : String) (now : ℚ)
    (hhp : mob.hp = 120) (_hmax : mob.maxHp = 120)
    (hcontrib : mob.damageContrib = [])
    (hx : 0 < mob.defn.xp) (hrw : 0 < mob.defn.respawn) (hpid : pid ≠ "") :
    (damageMob mob 150 (some pid) now).1.dead = true ∧
    (damageMob mob 150 (some pid) now).2 = some (pid, mob.defn.xp) ∧
    (damageMob mob 150 (some pid) now).1.respawnAt =
      some (now + mob.defn.respawn * 1000) := by
  have hx' : mob.defn.xp ≠ 0 := ne_of_gt hx
  have hrw' : mob.defn.respawn ≠ 0 := ne_of_gt hrw
  have h1 : ¬ mob.hp ≤ 0 := by rw [hhp]; norm_num
  have h2 : mob.hp - 150 ≤ 0 := by rw [hhp]; norm_num
  unfold damageMob
  rw [if_neg h1]
  dsimp only
  rw [if_neg hpid, hcontrib]
  rw [if_pos h2]
  simp only [addContrib, topDamager, List.foldl]
  norm_num
  exact ⟨⟨pid, ⟨hpid, rfl⟩, rfl, fun h => absurd h hx'⟩, fun h => absurd h hrw'⟩

/-- The goblin definition of `part_000` (`xp: 12`, `respawn: 12`,
`maxHp: 120`). -/
def goblinDef : MobDef := { xp := 12, respawn := 12 }

/-- A freshly spawned goblin for the C8 witness. -/
def c8mob : Mob :=
  { hp := 120, maxHp := 120, dead := false, damageContrib := [],
    respawnAt := none, defn := goblinDef }

/-- The attacking player's id for the C8 witness. -/
def c8pid : String := "p1"

/-- Witness for C8: a goblin overkilled by 150 damage from player `p1` at
`now = 5000` dies, credits `p1` with 12 XP, and respawns at 17000. -/
theorem c8_witness :
    c8mob.hp = 120 ∧ c8mob.maxHp = 120 ∧ c8mob.damageContrib = [] ∧
    0 < c8mob.defn.xp ∧ 0 < c8mob.defn.respawn ∧ c8pid ≠ "" ∧
    ((damageMob c8mob 150 (some c8pid) 5000).1.dead = true ∧
     (damageMob c8mob 150 (some c8pid) 5000).2 = some (c8pid, c8mob.defn.xp) ∧
     (damageMob c8mob 150 (some c8pid) 5000).1.respawnAt =
       some (5000 + c8mob.defn.respawn * 1000)) :=
  ⟨rfl, rfl, rfl, by norm_num [c8mob, goblinDef],
    by norm_num [c8mob, goblinDef], by decide,
    c8_overkill_death_credit_respawn c8mob c8pid 5000 rfl rfl rfl
      (by norm_num [c8mob, goblinDef]) (by norm_num [c8mob, goblinDef])
      (by decide)⟩

end Moborr

namespace Moborr

/-! ## Equipment stat aggregation (file `part_000`, lines 290-322)

`applyEquipmentBonusesForPlayer` sums the additive stat bonuses over the
occupied equipment slots, recomputes `maxHp = Math.max(1,
Math.round(_baseMaxHp + bonus.maxHp))`, and adjusts current hp by the
max-hp delta: a positive delta heals by the delta capped at the new
maximum, otherwise hp is just re-capped.  JS absent stats contribute 0, so
item stats are plain rationals here; `x || d` numeric defaulting is a zero
test, and the `typeof _base... !== 'number'` backfills are dropped (base
fields are always numbers in this model). -/

/-- The additive stat block of an equipment item. -/
structure ItemStats where
  maxHp : ℚ
  baseDamage : ℚ
  baseSpeed : ℚ
  damageMul : ℚ
  buffDurationMul : ℚ
  deriving DecidableEq

/-- The player fields touched by `applyEquipmentBonusesForPlayer`. -/
structure EqPlayer where
  hp : ℚ
  maxHp : ℚ
  baseSpeed : ℚ
  baseDamage : ℚ
  damageMul : ℚ
  buffDurationMul : ℚ
  baseMaxHp : ℚ
  baseBaseSpeed : ℚ
  baseBaseDamage : ℚ
  equipment : List (Option ItemStats)
  deriving DecidableEq

/-- The bonus-accumulation loop over occupied equipment slots, for one
stat selected by `f`. -/
def bonusOf (f : ItemStats → ℚ) (equipment : List (Option ItemStats)) : ℚ :=
  (equipment.map (fun it => match it with | some s => f s | none => 0)).sum

/-- The recomputed maximum hp
`Math.max(1, Math.round((player._baseMaxHp || 200) + bonus.maxHp))`. -/
def newMaxHp (p : EqPlayer) : ℚ :=
  max 1 ((round ((if p.baseMaxHp = 0 then 200 else p.baseMaxHp) +
    bonusOf (fun s => s.maxHp) p.equipment) : ℤ) : ℚ)

/-- `applyEquipmentBonusesForPlayer(player)` of `part_000`. -/
def applyEquipmentBonusesForPlayer (p : EqPlayer) : EqPlayer :=
  let prevMax := if p.maxHp = 0 then p.baseMaxHp else p.maxHp
  let newMax := newMaxHp p
  let delta := newMax - prevMax
  let hp1 :=
    if 0 < delta then min newMax ((if p.hp = 0 then prevMax else p.hp) + delta)
    else min (if p.hp = 0 then newMax else p.hp) newMax
  { p with
    maxHp := newMax
    hp := hp1
    baseDamage := max 0 ((if p.baseBaseDamage = 0 then 18 else p.baseBaseDamage) +
      bonusOf (fun s => s.baseDamage) p.equipment)
    baseSpeed := max 1 ((if p.baseBaseSpeed = 0 then 380 else p.baseBaseSpeed) +
      bonusOf (fun s => s.baseSpeed) p.equipment)
    damageMul := max 0 (1 + bonusOf (fun s => s.damageMul) p.equipment)
    buffDurationMul := max 0 (1 + bonusOf (fun s => s.buffDurationMul) p.equipment) }

/-- Claim C9, amended: recomputing equipment bonuses never pushes hp above
the new maximum; when the recomputed maximum exceeds the current one, hp
rises by exactly the delta capped at the new maximum (so hp never drops
below its prior value); and the `+50 maxHp` full-health scenario raises
both `hp` and `maxHp` by exactly 50 for a player whose current `maxHp`
equals the recomputed `Math.round(_baseMaxHp + bonus.maxHp)` — e.g. an
unleveled player.  The restriction is forced: `awardXpToPlayer` raises
`maxHp` by 50 per level without touching `_baseMaxHp`, and the recompute
rebuilds `maxHp` from `_baseMaxHp` alone, discarding those level-up gains
(see the counterexample below). -/
theorem c9_equipment_preserves_hp (p : EqPlayer)
    (eq2 : List (Option ItemStats)) (hhp : 0 < p.hp) (hle : p.hp ≤ p.maxHp) :
    ((applyEquipmentBonusesForPlayer p).hp ≤
        (applyEquipmentBonusesForPlayer p).maxHp ∧
      (p.maxHp < (applyEquipmentBonusesForPlayer p).maxHp →
        (applyEquipmentBonusesForPlayer p).hp =
          min (applyEquipmentBonusesForPlayer p).maxHp
            (p.hp + ((applyEquipmentBonusesForPlayer p).maxHp - p.maxHp)) ∧
        p.hp ≤ (applyEquipmentBonusesForPlayer p).hp)) ∧
    ((p.hp = p.maxHp ∧
      p.maxHp = ((round ((if p.baseMaxHp = 0 then 200 else p.baseMaxHp) +
        bonusOf (fun s => s.maxHp) p.equipment) : ℤ) : ℚ) ∧
      bonusOf (fun s => s.maxHp) eq2 =
        bonusOf (fun s => s.maxHp) p.equipment + 50) →
      ((applyEquipmentBonusesForPlayer { p with equipment := eq2 }).maxHp =
          p.maxHp + 50 ∧
        (applyEquipmentBonusesForPlayer { p with equipment := eq2 }).hp =
          p.hp + 50)) := by
  have hmaxpos : 0 < p.maxHp := lt_of_lt_of_le hhp hle
  have hmaxne : p.maxHp ≠ 0 := ne_of_gt hmaxpos
  have hhpne : p.hp ≠ 0 := ne_of_gt hhp
  constructor
  · unfold applyEquipmentBonusesForPlayer
    dsimp only
    rw [if_neg hmaxne, if_neg hhpne]
    constructor
    · split
      · exact min_le_left _ _
      · exact min_le_right _ _
    · intro hlt
      have hdelta : 0 < newMaxHp p - p.maxHp := by linarith
      rw [if_pos hdelta]
      refine ⟨rfl, le_min (by linarith) (by linarith)⟩
  · rintro ⟨hfull, hcons, hb⟩
    have hnew2 : newMaxHp { p with equipment := eq2 } = p.maxHp + 50 := by
      unfold newMaxHp
      dsimp only
      rw [hb]
      have hre : (if p.baseMaxHp = 0 then (200 : ℚ) else p.baseMaxHp) +
          (bonusOf (fun s => s.maxHp) p.equipment + 50) =
          ((if p.baseMaxHp = 0 then (200 : ℚ) else p.baseMaxHp) +
            bonusOf (fun s => s.maxHp) p.equipment) + ((50 : ℤ) : ℚ) := by
        push_cast
        ring
      rw [hre, round_add_int]
      have hcast : (((round ((if p.baseMaxHp = 0 then (200 : ℚ) else p.baseMaxHp) +
          bonusOf (fun s => s.maxHp) p.equipment) + 50 : ℤ)) : ℚ) =
          p.maxHp + 50 := by
        push_cast
        rw [← hcons]
      rw [hcast]
      exact max_eq_right (by linarith)
    unfold applyEquipmentBonusesForPlayer
    dsimp only
    rw [hnew2]
    rw [if_neg hmaxne, if_neg hhpne]
    have hdelta : (0 : ℚ) < p.maxHp + 50 - p.maxHp := by linarith
    rw [if_pos hdelta]
    refine ⟨rfl, ?_⟩
    rw [hfull]
    rw [min_eq_right (by linarith)]
    ring

/-- Base player at full health with empty equipment, for the C9 witness. -/
def c9p : EqPlayer :=
  { hp := 200, maxHp := 200, baseSpeed := 380, baseDamage := 18,
    damageMul := 1, buffDurationMul := 1, baseMaxHp := 200,
    baseBaseSpeed := 380, baseBaseDamage := 18, equipment := [] }

/-- A single equipped item granting `+50 maxHp`, for the C9 witness. -/
def c9eq2 : List (Option ItemStats) :=
  [some { maxHp := 50, baseDamage := 0, baseSpeed := 0, damageMul := 0,
          buffDurationMul := 0 }]

/-- Witness for C9: the concrete full-health player equipping the `+50
maxHp` item ends at `hp = maxHp = 250`. -/
theorem c9_witness :
    (0 : ℚ) < c9p.hp ∧ c9p.hp ≤ c9p.maxHp ∧
    (((applyEquipmentBonusesForPlayer c9p).hp ≤
        (applyEquipmentBonusesForPlayer c9p).maxHp ∧
      (c9p.maxHp < (applyEquipmentBonusesForPlayer c9p).maxHp →
        (applyEquipmentBonusesForPlayer c9p).hp =
          min (applyEquipmentBonusesForPlayer c9p).maxHp
            (c9p.hp + ((applyEquipmentBonusesForPlayer c9p).maxHp -
              c9p.maxHp)) ∧
        c9p.hp ≤ (applyEquipmentBonusesForPlayer c9p).hp)) ∧
    ((c9p.hp = c9p.maxHp ∧
      c9p.maxHp = ((round ((if c9p.baseMaxHp = 0 then 200
          else c9p.baseMaxHp) +
        bonusOf (fun s => s.maxHp) c9p.equipment) : ℤ) : ℚ) ∧
      bonusOf (fun s => s.maxHp) c9eq2 =
        bonusOf (fun s => s.maxHp) c9p.equipment + 50) →
      ((applyEquipmentBonusesForPlayer { c9p with equipment := c9eq2 }).maxHp =
          c9p.maxHp + 50 ∧
        (applyEquipmentBonusesForPlayer { c9p with equipment := c9eq2 }).hp =
          c9p.hp + 50))) :=
  ⟨by norm_num [c9p], by norm_num [c9p],
    c9_equipment_preserves_hp c9p c9eq2 (by norm_num [c9p])
      (by norm_num [c9p])⟩

/-- A level-2-style player: one `awardXpToPlayer` level-up has raised
`maxHp` (and hp) to 250 while `_baseMaxHp` stayed 200; the `+50 maxHp` item
has just been slotted and the recompute is about to run. -/
def c9cep : EqPlayer :=
  { hp := 250, maxHp := 250, baseSpeed := 380, baseDamage := 18,
    damageMul := 1, buffDurationMul := 1, baseMaxHp := 200,
    baseBaseSpeed := 380, baseBaseDamage := 18, equipment := c9eq2 }

/-- Claim C9, counterexample: for the full-health leveled player (hp =
maxHp = 250, `_baseMaxHp` = 200) equipping the `+50 maxHp` item, the
recompute rebuilds `maxHp = max(1, round(200 + 50)) = 250` — the delta is
0, so neither `maxHp` nor `hp` rises by 50 as the claim states; both stay
at 250. -/
theorem c9_counterexample :
    c9cep.hp = c9cep.maxHp ∧
    bonusOf (fun s => s.maxHp) c9cep.equipment = 50 ∧
    (applyEquipmentBonusesForPlayer c9cep).maxHp = 250 ∧
    (applyEquipmentBonusesForPlayer c9cep).hp = 250 ∧
    (applyEquipmentBonusesForPlayer c9cep).maxHp ≠ c9cep.maxHp + 50 ∧
    (applyEquipmentBonusesForPlayer c9cep).hp ≠ c9cep.hp + 50 := by
  have hb : bonusOf (fun s => s.maxHp) c9cep.equipment = 50 := by
    norm_num [bonusOf, c9cep, c9eq2]
  have hnm : newMaxHp c9cep = 250 := by
    unfold newMaxHp
    rw [hb]
    norm_num [c9cep, round_eq]
  have hmax : (applyEquipmentBonusesForPlayer c9cep).maxHp = 250 := by
    unfold applyEquipmentBonusesForPlayer
    dsimp only
    rw [hnm]
  have hhp : (applyEquipmentBonusesForPlayer c9cep).hp = 250 := by
    unfold applyEquipmentBonusesForPlayer
    dsimp only
    rw [hnm]
    norm_num [c9cep]
  refine ⟨rfl, hb, hmax, hhp, ?_, ?_⟩
  · rw [hmax]
    norm_num [c9cep]
  · rw [hhp]
    norm_num [c9cep]

end Moborr

namespace Moborr

/-! ## Startup wall generation (file `part_000`, lines 36-150)

At startup `part_000` thickens the fixed 26-waypoint centerline into one
closed polygon with `polylineToThickPolygon` (unit tangents via
`Math.hypot`, hence real coordinates; vertices are `Math.round`ed to
integers) and uses it as the single wall when it has at least 3 points;
otherwise it throws and the `catch` installs the hand-authored rectangular
`box(...)` layout.  Wall ids are dropped here; they do not affect the
geometry. -/

/-- `CELL = MAP_SIZE / 12 = 1500` of `part_000`. -/
def cellP0 : ℚ := 2 * mapHalfP0 / 12

/-- `GAP = Math.floor(Math.max(24, CELL * 0.05))` of `part_000`. -/
def gapP0 : ℚ := ((⌊max 24 (cellP0 * (5 / 100))⌋ : ℤ) : ℚ)

/-- `WALL_THICKNESS_WORLD = Math.max(Math.floor(CELL * 0.9), 536)`. -/
def wallThicknessWorld : ℚ := max ((⌊cellP0 * (9 / 10)⌋ : ℤ) : ℚ) 536

/-- A point with real coordinates (pre-rounding). -/
structure PointR where
  x : ℝ
  y : ℝ

/-- A rounded polygon vertex (`Math.round` of each coordinate). -/
structure PointZ where
  x : ℤ
  y : ℤ
  deriving DecidableEq

/-- `normalize(vx, vy)` of `part_000`: divide by `Math.hypot(vx, vy) || 1`. -/
noncomputable def normalizeV (vx vy : ℝ) : PointR :=
  let len := if hypotR vx vy = 0 then 1 else hypotR vx vy
  ⟨vx / len, vy / len⟩

/-- `polylineToThickPolygon(points, thickness)` of `part_000`: per-segment
left normals, miter-averaged at interior waypoints (falling back to the
segment normal when the average has length below `1e-4`), offset rails at
`±thickness/2`, concatenated left-forward then right-reversed, vertices
rounded; returns `[]` for fewer than 2 input points or fewer than 3
resulting vertices. -/
noncomputable def polylineToThickPolygon (pts : List PointR) (thickness : ℝ) :
    List PointZ :=
  if pts.length < 2 then []
  else
    let half := thickness / 2
    let pget := fun i => pts.getD i ⟨0, 0⟩
    let normals := (List.range (pts.length - 1)).map (fun i =>
      let dir := normalizeV ((pget (i + 1)).x - (pget i).x)
        ((pget (i + 1)).y - (pget i).y)
      (⟨-dir.y, dir.x⟩ : PointR))
    let nAt : ℕ → PointR := fun i =>
      if i = 0 then normals.getD 0 ⟨0, 1⟩
      else if i = pts.length - 1 then normals.getD (normals.length - 1) ⟨0, 1⟩
      else
        let sx := (normals.getD (i - 1) ⟨0, 0⟩).x + (normals.getD i ⟨0, 0⟩).x
        let sy := (normals.getD (i - 1) ⟨0, 0⟩).y + (normals.getD i ⟨0, 0⟩).y
        let nl := hypotR sx sy
        if nl < 1 / 10000 then normals.getD i ⟨0, 1⟩
        else ⟨sx / nl, sy / nl⟩
    let left := (List.range pts.length).map (fun i =>
      (⟨(pget i).x + (nAt i).x * half, (pget i).y + (nAt i).y * half⟩ :
        PointR))
    let right := (List.range pts.length).map (fun i =>
      (⟨(pget i).x - (nAt i).x * half, (pget i).y - (nAt i).y * half⟩ :
        PointR))
    let polygon := (left ++ right.reverse).map
      (fun p => (⟨round p.x, round p.y⟩ : PointZ))
    if 3 ≤ polygon.length then polygon else []

/-- A wall: an axis-aligned rectangle or a rounded polygon. -/
inductive Wall0 where
  | rect (x y w h : ℚ)
  | poly (pts : List PointZ)
  deriving DecidableEq

/-- The `box(col, row, wCells, hCells)` fallback helper of `part_000`. -/
def box0 (col row wCells hCells : ℕ) : Wall0 :=
  Wall0.rect (-mapHalfP0 + ((col : ℚ) - 1) * cellP0 + gapP0)
    (-mapHalfP0 + ((row : ℚ) - 1) * cellP0 + gapP0)
    (((max 1 wCells : ℕ) : ℚ) * cellP0 - gapP0 * 2)
    (((max 1 hCells : ℕ) : ℚ) * cellP0 - gapP0 * 2)

/-- The 36 `box(...)` calls of the fallback rectangular layout, in source
order, as `(col, row, wCells, hCells)`. -/
def fallbackBoxSpecs : List (ℕ × ℕ × ℕ × ℕ) :=
  [(1, 1, 12, 1), (1, 12, 12, 1), (1, 1, 1, 12), (12, 1, 1, 12),
   (2, 2, 1, 3), (2, 6, 1, 3), (2, 10, 1, 2), (3, 2, 4, 1), (6, 3, 1, 3),
   (4, 5, 4, 1), (6, 1, 1, 12), (8, 2, 1, 2), (10, 2, 1, 2), (9, 4, 3, 1),
   (8, 6, 1, 3), (10, 9, 1, 2), (3, 8, 2, 1), (2, 9, 1, 2), (4, 10, 3, 1),
   (7, 9, 2, 1), (9, 10, 2, 1), (11, 8, 1, 2), (4, 3, 1, 1), (5, 6, 1, 1),
   (8, 4, 1, 1), (7, 7, 1, 1), (3, 7, 4, 1), (5, 4, 1, 2), (9, 5, 1, 2),
   (5, 11, 2, 1), (10, 11, 1, 1), (6, 4, 1, 1), (8, 8, 1, 1), (3, 10, 1, 1),
   (11, 3, 1, 1), (7, 3, 1, 1)]

/-- The hand-authored fallback rectangular wall layout. -/
def fallbackWalls : List Wall0 :=
  fallbackBoxSpecs.map (fun s => box0 s.1 s.2.1 s.2.2.1 s.2.2.2)

/-- Startup wall selection: the thick centerline polygon when it has at
least 3 points (`walls = [{id, points: polyPts}]`), else the `catch`
branch's fallback layout, as a function of the centerline. -/
noncomputable def wallsFor (pts : List PointR) : List Wall0 :=
  let polyPts := polylineToThickPolygon pts ((wallThicknessWorld : ℚ) : ℝ)
  if 3 ≤ polyPts.length then [Wall0.poly polyPts] else fallbackWalls

/-- The maze centerline waypoints of `part_000` as grid cells. -/
def centerlineGrid : List (ℕ × ℕ) :=
  [(2, 1), (2, 3), (4, 3), (4, 1), (6, 1), (6, 3), (8, 3), (8, 1), (10, 1),
   (10, 3), (10, 5), (8, 5), (8, 7), (6, 7), (6, 5), (4, 5), (4, 7), (2, 7),
   (2, 9), (4, 9), (4, 11), (6, 11), (6, 9), (8, 9), (8, 11), (10, 11)]

/-- `gridToWorldCenter(col, row)` of `part_000`. -/
noncomputable def gridToWorldCenterR (col row : ℕ) : PointR :=
  ⟨-((mapHalfP0 : ℚ) : ℝ) + ((col : ℝ) - 1 / 2) * ((cellP0 : ℚ) : ℝ),
   -((mapHalfP0 : ℚ) : ℝ) + ((row : ℝ) - 1 / 2) * ((cellP0 : ℚ) : ℝ)⟩

/-- The world-space centerline built at startup. -/
noncomputable def centerlineP0 : List PointR :=
  centerlineGrid.map (fun cr => gridToWorldCenterR cr.1 cr.2)

/-- The wall set `part_000` ends up with at startup. -/
noncomputable def wallsP0 : List Wall0 := wallsFor centerlineP0

/-- A wall is non-degenerate: a rectangle with positive extents, or a
polygon with at least 3 vertices. -/
def nondegenerate : Wall0 → Prop
  | Wall0.rect _ _ w h => 0 < w ∧ 0 < h
  | Wall0.poly pts => 3 ≤ pts.length

/-- Every fallback box has positive width and height (each spans at least
one 1500-unit cell minus two 75-unit gaps). -/
theorem box0_nondegenerate (col row wCells hCells : ℕ) :
    nondegenerate (box0 col row wCells hCells) := by
  have hw : (1 : ℚ) ≤ ((max 1 wCells : ℕ) : ℚ) := by
    exact_mod_cast Nat.le_max_left 1 wCells
  have hh : (1 : ℚ) ≤ ((max 1 hCells : ℕ) : ℚ) := by
    exact_mod_cast Nat.le_max_left 1 hCells
  have hcell : cellP0 = 1500 := by norm_num [cellP0, mapHalfP0]
  have hgap : gapP0 = 75 := by norm_num [gapP0, cellP0, mapHalfP0]
  refine ⟨?_, ?_⟩ <;>
  · dsimp only [box0]
    rw [hcell, hgap]
    nlinarith

/-- The thickened polygon has exactly twice as many vertices as the
centerline when the centerline has at least 2 waypoints. -/
theorem polylineToThickPolygon_length (pts : List PointR) (t : ℝ)
    (h : 2 ≤ pts.length) :
    (polylineToThickPolygon pts t).length = 2 * pts.length := by
  unfold polylineToThickPolygon
  rw [if_neg (by omega)]
  dsimp only
  split
  · simp [two_mul]
  · rename_i hneg
    exfalso
    simp only [List.length_map, List.length_append, List.length_reverse,
      List.length_range] at hneg
    omega

/-- Claim C6: the fallback rectangular layout is chosen exactly when the
primary centerline-polygon generator yields fewer than 3 polygon points,
and in either case the resulting wall set is non-empty with every wall
non-degenerate (positive-extent rectangle or `≥ 3`-vertex polygon). -/
theorem c6_fallback_iff_and_walls_nondegenerate (pts : List PointR) :
    (wallsFor pts = fallbackWalls ↔
      (polylineToThickPolygon pts ((wallThicknessWorld : ℚ) : ℝ)).length < 3) ∧
    wallsFor pts ≠ [] ∧
    ∀ w ∈ wallsFor pts, nondegenerate w := by
  unfold wallsFor
  dsimp only
  split
  · rename_i hge
    refine ⟨⟨?_, ?_⟩, ?_, ?_⟩
    · intro heq
      exfalso
      have hlen : ([Wall0.poly (polylineToThickPolygon pts
          ((wallThicknessWorld : ℚ) : ℝ))] : List Wall0).length =
          fallbackWalls.length := by rw [heq]
      simp [fallbackWalls, fallbackBoxSpecs] at hlen
    · intro hlt
      omega
    · simp
    · intro w hw
      rw [List.mem_singleton] at hw
      subst hw
      exact hge
  · rename_i hlt
    push_neg at hlt
    refine ⟨⟨fun _ => hlt, fun _ => rfl⟩, ?_, ?_⟩
    · simp [fallbackWalls, fallbackBoxSpecs]
    · intro w hw
      rcases List.mem_map.mp hw with ⟨s, _, rfl⟩
      exact box0_nondegenerate s.1 s.2.1 s.2.2.1 s.2.2.2

end Moborr

namespace Moborr

/-! ## Circle-vs-rectangle resolution (file `part_002`, lines 94-148)

`resolveCircleRect(entity, rect)` clamps the circle center to the rectangle
to find the closest point; with no overlap (`dist >= radius`) it returns
unchanged; with partial overlap (`0 < dist < radius`) it pushes the center
out along the outward normal by `radius - dist + 0.5` and damps the normal
velocity component; with the center exactly on the clamped point
(`dist == 0`, center inside the rectangle) it picks the nearest of the four
edges and moves the center by `radius + 0.5` toward that edge, zeroing the
velocity. -/

/-- A wall rectangle `{x, y, w, h}` of `part_002`. -/
structure Rect2 where
  x : ℝ
  y : ℝ
  w : ℝ
  h : ℝ

/-- The entity fields touched by `resolveCircleRect`. -/
structure Ent2 where
  x : ℝ
  y : ℝ
  vx : ℝ
  vy : ℝ
  radius : ℝ

/-- `entity.radius || 15`. -/
noncomputable def effRadius2 (e : Ent2) : ℝ := if e.radius = 0 then 15 else e.radius

/-- `Math.max(rect.x, Math.min(x, rect.x + rect.w))`. -/
noncomputable def rectClosestX (r : Rect2) (x : ℝ) : ℝ :=
  max r.x (min x (r.x + r.w))

/-- `Math.max(rect.y, Math.min(y, rect.y + rect.h))`. -/
noncomputable def rectClosestY (r : Rect2) (y : ℝ) : ℝ :=
  max r.y (min y (r.y + r.h))

/-- Distance from a point to a rectangle, through the clamped closest point
(exactly the `Math.hypot`-style distance the source computes). -/
noncomputable def distToRect (x y : ℝ) (r : Rect2) : ℝ :=
  Real.sqrt ((x - rectClosestX r x) ^ 2 + (y - rectClosestY r y) ^ 2)

/-- The minimum of the four center-to-edge distances computed by the
inside-rectangle branch. -/
noncomputable def minEdgeDist (e : Ent2) (r : Rect2) : ℝ :=
  min (min |e.x - r.x| |e.x - (r.x + r.w)|)
    (min |e.y - r.y| |e.y - (r.y + r.h)|)

/-- `resolveCircleRect(entity, rect)` of `part_002`. -/
noncomputable def resolveCircleRect (e : Ent2) (r : Rect2) : Ent2 :=
  let radius := effRadius2 e
  let dx := e.x - rectClosestX r e.x
  let dy := e.y - rectClosestY r e.y
  let dist := Real.sqrt (dx ^ 2 + dy ^ 2)
  if radius ≤ dist then e
  else if 0 < dist then
    let overlap := radius - dist + 1 / 2
    let nx := dx / dist
    let ny := dy / dist
    let vn := e.vx * nx + e.vy * ny
    { x := e.x + nx * overlap, y := e.y + ny * overlap,
      vx := if 0 < vn then e.vx - vn * nx * (8 / 10) else e.vx,
      vy := if 0 < vn then e.vy - vn * ny * (8 / 10) else e.vy,
      radius := e.radius }
  else
    let minDist := minEdgeDist e r
    let n : ℝ × ℝ :=
      if minDist = |e.x - r.x| then (-1, 0)
      else if minDist = |e.x - (r.x + r.w)| then (1, 0)
      else if minDist = |e.y - r.y| then (0, -1)
      else (0, 1)
    { x := e.x + n.1 * (radius + 1 / 2), y := e.y + n.2 * (radius + 1 / 2),
      vx := 0, vy := 0, radius := e.radius }

/-- Clamping is unchanged by moving a point further along (or exactly on)
the ray from its clamped image through itself with any factor `s ≥ 1`. -/
theorem clamp_shift (lo hi v s : ℝ) (hlh : lo ≤ hi) (hs : 1 ≤ s) :
    max lo (min (max lo (min v hi) + s * (v - max lo (min v hi))) hi) =
      max lo (min v hi) := by
  rcases le_or_lt v lo with hv | hv
  · have hc : max lo (min v hi) = lo := by
      rw [min_eq_left (le_trans hv hlh), max_eq_left hv]
    rw [hc]
    have hu : lo + s * (v - lo) ≤ lo := by
      nlinarith [mul_nonneg (sub_nonneg.mpr hs) (sub_nonneg.mpr hv)]
    rw [min_eq_left (le_trans hu hlh), max_eq_left hu]
  · rcases le_or_lt v hi with hv2 | hv2
    · have hc : max lo (min v hi) = v := by
        rw [min_eq_left hv2, max_eq_right hv.le]
      rw [hc]
      have hu : v + s * (v - v) = v := by ring
      rw [hu, min_eq_left hv2, max_eq_right hv.le]
    · have hc : max lo (min v hi) = hi := by
        rw [min_eq_right hv2.le, max_eq_right hlh]
      rw [hc]
      have hu : hi ≤ hi + s * (v - hi) := by
        nlinarith [mul_nonneg (le_trans zero_le_one hs) (by linarith : (0 : ℝ) ≤ v - hi)]
      rw [min_eq_right hu, max_eq_right hlh]

/-- Distance to the rectangle from a point left of the left edge at a
height within the rectangle's vertical span. -/
theorem distToRect_left (r : Rect2) (u v : ℝ) (hlh : r.x ≤ r.x + r.w)
    (hu : u ≤ r.x) (hv1 : r.y ≤ v) (hv2 : v ≤ r.y + r.h) :
    distToRect u v r = r.x - u := by
  unfold distToRect rectClosestX rectClosestY
  rw [min_eq_left (le_trans hu hlh), max_eq_left hu,
    min_eq_left hv2, max_eq_right hv1, sub_self]
  rw [show (0 : ℝ) ^ 2 = 0 by ring, add_zero, Real.sqrt_sq_eq_abs,
    abs_of_nonpos (by linarith)]
  ring

/-- Distance to the rectangle from a point right of the right edge. -/
theorem distToRect_right (r : Rect2) (u v : ℝ) (hlh : r.x ≤ r.x + r.w)
    (hu : r.x + r.w ≤ u) (hv1 : r.y ≤ v) (hv2 : v ≤ r.y + r.h) :
    distToRect u v r = u - (r.x + r.w) := by
  unfold distToRect rectClosestX rectClosestY
  rw [min_eq_right hu, max_eq_right hlh,
    min_eq_left hv2, max_eq_right hv1, sub_self]
  rw [show (0 : ℝ) ^ 2 = 0 by ring, add_zero, Real.sqrt_sq_eq_abs,
    abs_of_nonneg (by linarith)]

/-- Distance to the rectangle from a point above the top edge. -/
theorem distToRect_top (r : Rect2) (u v : ℝ) (hlh : r.y ≤ r.y + r.h)
    (hv : v ≤ r.y) (hu1 : r.x ≤ u) (hu2 : u ≤ r.x + r.w) :
    distToRect u v r = r.y - v := by
  unfold distToRect rectClosestX rectClosestY
  rw [min_eq_left hu2, max_eq_right hu1,
    min_eq_left (le_trans hv hlh), max_eq_left hv, sub_self]
  rw [show (0 : ℝ) ^ 2 = 0 by ring, zero_add, Real.sqrt_sq_eq_abs,
    abs_of_nonpos (by linarith)]
  ring

/-- Distance to the rectangle from a point below the bottom edge. -/
theorem distToRect_bottom (r : Rect2) (u v : ℝ) (hlh : r.y ≤ r.y + r.h)
    (hv : r.y + r.h ≤ v) (hu1 : r.x ≤ u) (hu2 : u ≤ r.x + r.w) :
    distToRect u v r = v - (r.y + r.h) := by
  unfold distToRect rectClosestX rectClosestY
  rw [min_eq_left hu2, max_eq_right hu1,
    min_eq_right hv, max_eq_right hlh, sub_self]
  rw [show (0 : ℝ) ^ 2 = 0 by ring, zero_add, Real.sqrt_sq_eq_abs,
    abs_of_nonneg (by linarith)]

/-- Claim C4, amended: one call to `resolveCircleRect` leaves the center at
distance at least the (effective) radius from the rectangle — in fact no
epsilon at all is lost — provided that a center starting strictly inside
the rectangle is at depth at most `0.5` from its nearest edge (the inside
branch translates by only `radius + 0.5`, so a deeper center stays
inside). -/
theorem c4_resolution_no_penetration (e : Ent2) (r : Rect2)
    (hw : 0 ≤ r.w) (hh : 0 ≤ r.h) (hrad : 0 ≤ e.radius)
    (hshallow : distToRect e.x e.y r = 0 → minEdgeDist e r ≤ 1 / 2) :
    effRadius2 e ≤
      distToRect (resolveCircleRect e r).x (resolveCircleRect e r).y r := by
  have hlhx : r.x ≤ r.x + r.w := by linarith
  have hlhy : r.y ≤ r.y + r.h := by linarith
  have hR : 0 < effRadius2 e := by
    unfold effRadius2
    split
    · norm_num
    · rename_i hne
      exact lt_of_le_of_ne hrad (Ne.symm hne)
  have hcx1 : r.x ≤ rectClosestX r e.x := le_max_left _ _
  have hcx2 : rectClosestX r e.x ≤ r.x + r.w := max_le hlhx (min_le_right _ _)
  have hcy1 : r.y ≤ rectClosestY r e.y := le_max_left _ _
  have hcy2 : rectClosestY r e.y ≤ r.y + r.h := max_le hlhy (min_le_right _ _)
  unfold resolveCircleRect
  dsimp only
  split
  · rename_i hA
    exact hA
  · rename_i hA
    push_neg at hA
    split
    · rename_i hB
      dsimp only
      set D := Real.sqrt ((e.x - rectClosestX r e.x) ^ 2 +
        (e.y - rectClosestY r e.y) ^ 2) with hD
      have hDne : D ≠ 0 := ne_of_gt hB
      have hs1 : 1 ≤ (effRadius2 e + 1 / 2) / D := by
        rw [le_div_iff₀ hB]
        linarith
      have hxe : e.x + (e.x - rectClosestX r e.x) / D *
          (effRadius2 e - D + 1 / 2) =
          rectClosestX r e.x + (effRadius2 e + 1 / 2) / D *
            (e.x - rectClosestX r e.x) := by
        field_simp
        ring
      have hye : e.y + (e.y - rectClosestY r e.y) / D *
          (effRadius2 e - D + 1 / 2) =
          rectClosestY r e.y + (effRadius2 e + 1 / 2) / D *
            (e.y - rectClosestY r e.y) := by
        field_simp
        ring
      rw [hxe, hye]
      have hc1 : rectClosestX r (rectClosestX r e.x +
          (effRadius2 e + 1 / 2) / D * (e.x - rectClosestX r e.x)) =
          rectClosestX r e.x := by
        have h := clamp_shift r.x (r.x + r.w) e.x
          ((effRadius2 e + 1 / 2) / D) hlhx hs1
        simpa [rectClosestX] using h
      have hc2 : rectClosestY r (rectClosestY r e.y +
          (effRadius2 e + 1 / 2) / D * (e.y - rectClosestY r e.y)) =
          rectClosestY r e.y := by
        have h := clamp_shift r.y (r.y + r.h) e.y
          ((effRadius2 e + 1 / 2) / D) hlhy hs1
        simpa [rectClosestY] using h
      unfold distToRect
      rw [hc1, hc2]
      have halg : (rectClosestX r e.x + (effRadius2 e + 1 / 2) / D *
            (e.x - rectClosestX r e.x) - rectClosestX r e.x) ^ 2 +
          (rectClosestY r e.y + (effRadius2 e + 1 / 2) / D *
            (e.y - rectClosestY r e.y) - rectClosestY r e.y) ^ 2 =
          ((effRadius2 e + 1 / 2) / D) ^ 2 *
            ((e.x - rectClosestX r e.x) ^ 2 +
              (e.y - rectClosestY r e.y) ^ 2) := by
        ring
      rw [halg, Real.sqrt_mul (sq_nonneg _), Real.sqrt_sq
        (div_nonneg (by linarith) hB.le), ← hD, div_mul_cancel₀ _ hDne]
      linarith
    · rename_i hB
      push_neg at hB
      have hD0 : Real.sqrt ((e.x - rectClosestX r e.x) ^ 2 +
          (e.y - rectClosestY r e.y) ^ 2) = 0 :=
        le_antisymm hB (Real.sqrt_nonneg _)
      have hsum : (e.x - rectClosestX r e.x) ^ 2 +
          (e.y - rectClosestY r e.y) ^ 2 ≤ 0 := Real.sqrt_eq_zero'.mp hD0
      have hdx : e.x - rectClosestX r e.x = 0 := by
        nlinarith [sq_nonneg (e.x - rectClosestX r e.x),
          sq_nonneg (e.y - rectClosestY r e.y)]
      have hdy : e.y - rectClosestY r e.y = 0 := by
        nlinarith [sq_nonneg (e.x - rectClosestX r e.x),
          sq_nonneg (e.y - rectClosestY r e.y)]
      have hex1 : r.x ≤ e.x := by linarith
      have hex2 : e.x ≤ r.x + r.w := by linarith
      have hey1 : r.y ≤ e.y := by linarith
      have hey2 : e.y ≤ r.y + r.h := by linarith
      have hm : minEdgeDist e r ≤ 1 / 2 := hshallow hD0
      have hLa : |e.x - r.x| = e.x - r.x := abs_of_nonneg (by linarith)
      have hRa : |e.x - (r.x + r.w)| = r.x + r.w - e.x := by
        rw [abs_of_nonpos (by linarith)]
        ring
      have hTa : |e.y - r.y| = e.y - r.y := abs_of_nonneg (by linarith)
      have hBa : |e.y - (r.y + r.h)| = r.y + r.h - e.y := by
        rw [abs_of_nonpos (by linarith)]
        ring
      have hchoice : minEdgeDist e r = |e.x - r.x| ∨
          minEdgeDist e r = |e.x - (r.x + r.w)| ∨
          minEdgeDist e r = |e.y - r.y| ∨
          minEdgeDist e r = |e.y - (r.y + r.h)| := by
        unfold minEdgeDist
        rcases min_choice (min |e.x - r.x| |e.x - (r.x + r.w)|)
          (min |e.y - r.y| |e.y - (r.y + r.h)|) with h | h
        · rcases min_choice |e.x - r.x| |e.x - (r.x + r.w)| with h2 | h2
          · exact Or.inl (h.trans h2)
          · exact Or.inr (Or.inl (h.trans h2))
        · rcases min_choice |e.y - r.y| |e.y - (r.y + r.h)| with h2 | h2
          · exact Or.inr (Or.inr (Or.inl (h.trans h2)))
          · exact Or.inr (Or.inr (Or.inr (h.trans h2)))
      dsimp only
      split
      · rename_i hcase
        dsimp only
        have hdl : e.x - r.x ≤ 1 / 2 := by
          rw [hcase, hLa] at hm
          exact hm
        rw [distToRect_left r (e.x + (-1) * (effRadius2 e + 1 / 2))
          (e.y + 0 * (effRadius2 e + 1 / 2)) hlhx (by linarith)
          (by linarith) (by linarith)]
        linarith
      · rename_i hn1
        split
        · rename_i hcase
          dsimp only
          have hdr : r.x + r.w - e.x ≤ 1 / 2 := by
            rw [hcase, hRa] at hm
            exact hm
          rw [distToRect_right r (e.x + 1 * (effRadius2 e + 1 / 2))
            (e.y + 0 * (effRadius2 e + 1 / 2)) hlhx (by linarith)
            (by linarith) (by linarith)]
          linarith
        · rename_i hn2
          split
          · rename_i hcase
            dsimp only
            have hdt : e.y - r.y ≤ 1 / 2 := by
              rw [hcase, hTa] at hm
              exact hm
            rw [distToRect_top r (e.x + 0 * (effRadius2 e + 1 / 2))
              (e.y + (-1) * (effRadius2 e + 1 / 2)) hlhy (by linarith)
              (by linarith) (by linarith)]
            linarith
          · rename_i hn3
            dsimp only
            have hcase : minEdgeDist e r = |e.y - (r.y + r.h)| := by
              rcases hchoice with h | h | h | h
              · exact absurd h hn1
              · exact absurd h hn2
              · exact absurd h hn3
              · exact h
            have hdb : r.y + r.h - e.y ≤ 1 / 2 := by
              rw [hcase, hBa] at hm
              exact hm
            rw [distToRect_bottom r (e.x + 0 * (effRadius2 e + 1 / 2))
              (e.y + 1 * (effRadius2 e + 1 / 2)) hlhy (by linarith)
              (by linarith) (by linarith)]
            linarith

/-- A radius-15 entity at the exact center of a 1000×1000 wall cell, for
the C4 counterexample. -/
def c4ent : Ent2 := { x := 500, y := 500, vx := 0, vy := 0, radius := 15 }

/-- The 1000×1000 rectangle of the C4 counterexample. -/
def c4rect : Rect2 := { x := 0, y := 0, w := 1000, h := 1000 }

/-- Claim C4, counterexample: for the entity starting at the center of the
1000×1000 rectangle, one call to `resolveCircleRect` moves it only
`radius + 0.5` along the least-penetration axis, leaving the center still
inside — the post-resolution distance to the rectangle is `0`, far below
`radius - ε` for every small `ε` (shown here for `ε = 1/2`). -/
theorem c4_counterexample :
    distToRect (resolveCircleRect c4ent c4rect).x
      (resolveCircleRect c4ent c4rect).y c4rect = 0 ∧
    distToRect (resolveCircleRect c4ent c4rect).x
      (resolveCircleRect c4ent c4rect).y c4rect <
      effRadius2 c4ent - 1 / 2 := by
  have hres : resolveCircleRect c4ent c4rect =
      { x := 969 / 2, y := 500, vx := 0, vy := 0, radius := 15 } := by
    norm_num [resolveCircleRect, effRadius2, minEdgeDist, rectClosestX,
      rectClosestY, c4ent, c4rect, min_def, max_def, Real.sqrt_zero,
      abs_of_nonneg, abs_of_nonpos]
  have hpost : distToRect (969 / 2 : ℝ) 500 c4rect = 0 := by
    norm_num [distToRect, rectClosestX, rectClosestY, c4rect, min_def,
      max_def, Real.sqrt_zero]
  rw [hres]
  dsimp only
  rw [hpost]
  norm_num [effRadius2, c4ent]

/-- A radius-2 entity just inside the left edge of a 10×10 rectangle
(depth 1/4 ≤ 1/2), for the C4 witness. -/
noncomputable def c4went : Ent2 :=
  { x := 1 / 4, y := 5, vx := 0, vy := 0, radius := 2 }

/-- The 10×10 rectangle of the C4 witness. -/
def c4wrect : Rect2 := { x := 0, y := 0, w := 10, h := 10 }

/-- Witness for the amended C4 at the concrete shallow-inside entity. -/
theorem c4_witness :
    (0 : ℝ) ≤ c4wrect.w ∧ (0 : ℝ) ≤ c4wrect.h ∧ (0 : ℝ) ≤ c4went.radius ∧
    minEdgeDist c4went c4wrect ≤ 1 / 2 ∧
    effRadius2 c4went ≤
      distToRect (resolveCircleRect c4went c4wrect).x
        (resolveCircleRect c4went c4wrect).y c4wrect :=
  ⟨by norm_num [c4wrect], by norm_num [c4wrect], by norm_num [c4went],
    by norm_num [minEdgeDist, c4went, c4wrect, abs_of_nonneg,
      abs_of_nonpos, min_def],
    c4_resolution_no_penetration c4went c4wrect (by norm_num [c4wrect])
      (by norm_num [c4wrect]) (by norm_num [c4went])
      (fun _ => by
        norm_num [minEdgeDist, c4went, c4wrect, abs_of_nonneg,
          abs_of_nonpos, min_def])⟩

end Moborr
